import Mathlib

/-!
Verification of the libbacktrace sources against their specification.

The development shallowly embeds the relevant C functions:

* `sort.c` : `swap` / `backtrace_qsort` (shell sort), embedded on `List α`
  at element granularity (one list cell per array element of `size` bytes);
* `pecoff.c` : `coff_crc32`, `coff_try_debugfile`,
  `coff_find_debugfile_by_debuglink`, `coff_open_debugfile_by_debuglink`,
  the PE header checks of `coff_add`, `coff_expand_symbol`,
  `coff_is_function_symbol`, `coff_initialize_syminfo`, `coff_symbol_compare`
  and the `bsearch` driven `coff_symbol_search`;
* `macho.c` : `macho_file_to_host_u32`/`u64`, `macho_get_base` (byte-accurate,
  little-endian host), and the control flow of `macho_try_dwarf`.

Machine integers are modelled as `Nat` with explicit `% 2^w` where overflow
matters.  Fallible code returns `Option`.
-/

/-- The gap update of the shell sort in `backtrace_qsort` (sort.c line 76):
`dist = (dist / 8 * 3) | 1`. -/
def gapNext (dist : Nat) : Nat := dist / 8 * 3 ||| 1

theorem lor_one_eq (x : Nat) : x ||| 1 = 2 * (x / 2) + 1 := by
  apply Nat.eq_of_testBit_eq
  intro i
  cases i with
  | zero =>
      simp [Nat.testBit_or, Nat.testBit_zero, Nat.mul_add_mod]
  | succ i =>
      have h1 : (2 * (x / 2) + 1) / 2 = x / 2 := by omega
      have h3 : Nat.testBit 1 (i + 1) = false := by
        rw [Nat.testBit_succ]; norm_num
      rw [Nat.testBit_or, h3, Bool.or_false, Nat.testBit_succ,
        Nat.testBit_succ, h1]

theorem gapNext_pos (dist : Nat) : 0 < gapNext dist := by
  rw [gapNext, lor_one_eq]; omega

theorem gapNext_lt (dist : Nat) (h : 2 ≤ dist) : gapNext dist < dist := by
  rw [gapNext, lor_one_eq]; omega

theorem gapNext_eq_one (dist : Nat) (h : dist < 8) : gapNext dist = 1 := by
  rw [gapNext, lor_one_eq]
  have : dist / 8 = 0 := Nat.div_eq_of_lt h
  omega

/-- Element-level model of `swap` (sort.c lines 45-58): exchange the records
at positions `i` and `j`.  The byte loop of the C `swap` exchanges the two
`size`-byte records wholesale, which at record granularity is this exchange.
The bounds guard only expresses that the C callers always pass in-range
pointers. -/
def listSwap {α : Type} [Inhabited α] (l : List α) (i j : Nat) : List α :=
  if i < l.length ∧ j < l.length then
    (l.set i (l.getD j default)).set j (l.getD i default)
  else l

/-- The inner `for (cur = base + i*size - d; cur >= base; cur -= d)` loop of
`backtrace_qsort` (sort.c lines 79-84), at element granularity: `j` is the
index of `cur`, `d` the gap (`dist`), and the moving record sits at `j + d`.
The C callers always have `0 < dist`, which the proof argument records. -/
def sink {α : Type} [Inhabited α] (compar : α → α → Int) (d : Nat)
    (hd : 0 < d) (l : List α) (j : Nat) : List α :=
  if compar (l.getD j default) (l.getD (j + d) default) ≤ 0 then l
  else if j < d then listSwap l j (j + d)
  else sink compar d hd (listSwap l j (j + d)) (j - d)
termination_by j
decreasing_by omega

/-- The middle `for (i = dist; i < count; i++)` loop of `backtrace_qsort`
(sort.c line 78): run `sink` for every `i` from the current value up to
`count` (called `n` here). -/
def passFrom {α : Type} [Inhabited α] (compar : α → α → Int) (d : Nat)
    (hd : 0 < d) (n : Nat) (l : List α) (i : Nat) : List α :=
  if i < n then passFrom compar d hd n (sink compar d hd l (i - d)) (i + 1)
  else l
termination_by n - i

/-- The outer `do { ... } while (dist != 1)` loop of `backtrace_qsort`
(sort.c lines 74-86): update the gap, run a pass, stop once the gap was 1. -/
def shellLoop {α : Type} [Inhabited α] (compar : α → α → Int) (n : Nat)
    (l : List α) (dist : Nat) : List α :=
  let l2 := passFrom compar (gapNext dist) (gapNext_pos dist) n l (gapNext dist)
  if gapNext dist = 1 then l2 else shellLoop compar n l2 (gapNext dist)
termination_by dist
decreasing_by
  rename_i hne
  rcases Nat.lt_or_ge dist 8 with h8 | h8
  · exact absurd (gapNext_eq_one dist h8) hne
  · exact gapNext_lt dist (by omega)

/-- Model of `backtrace_qsort` (sort.c lines 60-87) on a list of records:
`count < 2` returns at once, otherwise the shell sort runs with the gap
sequence starting from `count`. -/
def backtrace_qsort {α : Type} [Inhabited α] (compar : α → α → Int)
    (l : List α) : List α :=
  if l.length < 2 then l else shellLoop compar l.length l l.length

theorem get_cons_set_perm {α : Type} :
    ∀ (t : List α) (k : Nat) (hk : k < t.length) (x : α),
      List.Perm (t.get ⟨k, hk⟩ :: t.set k x) (x :: t) := by
  intro t
  induction t with
  | nil => intro k hk; exact absurd hk (by simp)
  | cons b t2 ih =>
      intro k hk x
      cases k with
      | zero => simpa using List.Perm.swap x b t2
      | succ kk =>
          have hkk : kk < t2.length := by simpa using hk
          have s1 : List.Perm (t2.get ⟨kk, hkk⟩ :: b :: t2.set kk x)
              (b :: t2.get ⟨kk, hkk⟩ :: t2.set kk x) :=
            List.Perm.swap b (t2.get ⟨kk, hkk⟩) (t2.set kk x)
          have s2 : List.Perm (b :: t2.get ⟨kk, hkk⟩ :: t2.set kk x)
              (b :: x :: t2) := List.Perm.cons b (ih kk hkk x)
          have s3 : List.Perm (b :: x :: t2) (x :: b :: t2) :=
            List.Perm.swap x b t2
          simpa using (s1.trans s2).trans s3

theorem set_set_perm_of_lt {α : Type} :
    ∀ (l : List α) (i j : Nat) (hij : i < j) (hj : j < l.length)
      (hi : i < l.length),
      List.Perm ((l.set i (l.get ⟨j, hj⟩)).set j (l.get ⟨i, hi⟩)) l := by
  intro l
  induction l with
  | nil => intro i j hij hj; exact absurd hj (by simp)
  | cons a t ih =>
      intro i j hij hj hi
      cases i with
      | zero =>
          cases j with
          | zero => omega
          | succ jj =>
              have hjj : jj < t.length := by simpa using hj
              simpa using get_cons_set_perm t jj hjj a
      | succ ii =>
          cases j with
          | zero => omega
          | succ jj =>
              have hjj : jj < t.length := by simpa using hj
              have hii : ii < t.length := by simpa using hi
              simpa using List.Perm.cons a (ih ii jj (by omega) hjj hii)

theorem listSwap_perm {α : Type} [Inhabited α] (l : List α) (i j : Nat)
    (hij : i < j) : List.Perm (listSwap l i j) l := by
  rw [listSwap]
  split
  · rename_i h
    have hi : i < l.length := h.1
    have hj : j < l.length := h.2
    have e1 : l.getD j default = l.get ⟨j, hj⟩ := by
      simp [List.getD_eq_getElem?_getD, List.getElem?_eq_getElem hj]
    have e2 : l.getD i default = l.get ⟨i, hi⟩ := by
      simp [List.getD_eq_getElem?_getD, List.getElem?_eq_getElem hi]
    rw [e1, e2]
    exact set_set_perm_of_lt l i j hij hj hi
  · exact List.Perm.refl l

theorem sink_perm {α : Type} [Inhabited α] (compar : α → α → Int) (d : Nat)
    (hd : 0 < d) :
    ∀ (j : Nat) (l : List α), List.Perm (sink compar d hd l j) l := by
  intro j
  induction j using Nat.strong_induction_on with
  | _ j ih =>
      intro l
      rw [sink]
      split
      · exact List.Perm.refl l
      · split
        · exact listSwap_perm l j (j + d) (by omega)
        · exact (ih (j - d) (by omega) _).trans
            (listSwap_perm l j (j + d) (by omega))

theorem passFrom_perm_aux {α : Type} [Inhabited α] (compar : α → α → Int)
    (d : Nat) (hd : 0 < d) (n : Nat) :
    ∀ (fuel i : Nat) (l : List α), n - i ≤ fuel →
      List.Perm (passFrom compar d hd n l i) l := by
  intro fuel
  induction fuel with
  | zero =>
      intro i l hle
      rw [passFrom]
      split
      · omega
      · exact List.Perm.refl l
  | succ fuel ih =>
      intro i l hle
      rw [passFrom]
      split
      · exact (ih (i + 1) _ (by omega)).trans
          (sink_perm compar d hd (i - d) l)
      · exact List.Perm.refl l

theorem passFrom_perm {α : Type} [Inhabited α] (compar : α → α → Int)
    (d : Nat) (hd : 0 < d) (n i : Nat) (l : List α) :
    List.Perm (passFrom compar d hd n l i) l :=
  passFrom_perm_aux compar d hd n (n - i) i l (Nat.le_refl _)

theorem shellLoop_perm {α : Type} [Inhabited α] (compar : α → α → Int)
    (n : Nat) :
    ∀ (dist : Nat) (l : List α), List.Perm (shellLoop compar n l dist) l := by
  intro dist
  induction dist using Nat.strong_induction_on with
  | _ dist ih =>
      intro l
      rw [shellLoop]
      split
      · exact passFrom_perm compar _ _ n _ l
      · rename_i hne
        have hlt : gapNext dist < dist := by
          rcases Nat.lt_or_ge dist 8 with h8 | h8
          · exact absurd (gapNext_eq_one dist h8) hne
          · exact gapNext_lt dist (by omega)
        exact (ih (gapNext dist) hlt _).trans
          (passFrom_perm compar _ _ n _ l)

theorem backtrace_qsort_perm {α : Type} [Inhabited α]
    (compar : α → α → Int) (l : List α) :
    List.Perm (backtrace_qsort compar l) l := by
  rw [backtrace_qsort]
  split
  · exact List.Perm.refl l
  · exact shellLoop_perm compar l.length l.length l

theorem getD_eq_get {α : Type} [Inhabited α] (l : List α) (i : Nat)
    (h : i < l.length) : l.getD i default = l.get ⟨i, h⟩ := by
  simp [List.getD_eq_getElem?_getD, List.getElem?_eq_getElem h]

theorem getD_set_self {α : Type} [Inhabited α] (l : List α) (i : Nat) (v : α)
    (h : i < l.length) : (l.set i v).getD i default = v := by
  simp [List.getD_eq_getElem?_getD, List.getElem?_set_self h]

theorem getD_set_other {α : Type} [Inhabited α] (l : List α) (i k : Nat)
    (v : α) (h : i ≠ k) : (l.set i v).getD k default = l.getD k default := by
  simp [List.getD_eq_getElem?_getD, List.getElem?_set_ne h]

theorem listSwap_length {α : Type} [Inhabited α] (l : List α) (i j : Nat) :
    (listSwap l i j).length = l.length := by
  rw [listSwap]; split
  · simp
  · rfl

theorem listSwap_getD_fst {α : Type} [Inhabited α] (l : List α) (i j : Nat)
    (hij : i < j) (hj : j < l.length) :
    (listSwap l i j).getD i default = l.getD j default := by
  rw [listSwap, if_pos ⟨by omega, hj⟩,
    getD_set_other _ j i _ (by omega),
    getD_set_self l i _ (by omega)]

theorem listSwap_getD_snd {α : Type} [Inhabited α] (l : List α) (i j : Nat)
    (hij : i < j) (hj : j < l.length) :
    (listSwap l i j).getD j default = l.getD i default := by
  rw [listSwap, if_pos ⟨by omega, hj⟩,
    getD_set_self _ j _ (by simpa using hj)]

theorem listSwap_getD_other {α : Type} [Inhabited α] (l : List α)
    (i j k : Nat) (hki : k ≠ i) (hkj : k ≠ j) :
    (listSwap l i j).getD k default = l.getD k default := by
  rw [listSwap]; split
  · rw [getD_set_other _ j k _ (by omega), getD_set_other _ i k _ (by omega)]
  · rfl

theorem sink_one_sorted {α : Type} [Inhabited α] (compar : α → α → Int)
    (htot : ∀ x y : α, compar x y ≤ 0 ∨ compar y x ≤ 0)
    (d : Nat) (hd : 0 < d) (hde : d = 1) :
    ∀ (j : Nat) (l : List α) (m : Nat), j + 1 ≤ m → m < l.length →
      (∀ k, k + 1 ≤ j →
        compar (l.getD k default) (l.getD (k + 1) default) ≤ 0) →
      (∀ k, j + 1 ≤ k → k + 1 ≤ m →
        compar (l.getD k default) (l.getD (k + 1) default) ≤ 0) →
      (j + 2 ≤ m → compar (l.getD j default) (l.getD (j + 2) default) ≤ 0) →
      ∀ k, k + 1 ≤ m →
        compar ((sink compar d hd l j).getD k default)
          ((sink compar d hd l j).getD (k + 1) default) ≤ 0 := by
  subst hde
  intro j
  induction j using Nat.strong_induction_on with
  | _ j ih =>
      intro l m hjm hml hP1 hP2 hP3 k hkm
      rw [sink]
      split
      · rename_i hstop
        rcases Nat.lt_trichotomy k j with h | h | h
        · exact hP1 k (by omega)
        · subst h; exact hstop
        · exact hP2 k (by omega) hkm
      · rename_i hneg
        have hswap : compar (l.getD (j + 1) default) (l.getD j default) ≤ 0 :=
          (htot _ _).resolve_left hneg
        have hj1l : j + 1 < l.length := by omega
        split
        · rename_i hj0
          have hj : j = 0 := by omega
          subst hj
          have f1 : (listSwap l 0 (0 + 1)).getD 0 default = l.getD 1 default :=
            listSwap_getD_fst l 0 1 (by omega) hj1l
          have f2 : (listSwap l 0 (0 + 1)).getD 1 default = l.getD 0 default :=
            listSwap_getD_snd l 0 1 (by omega) hj1l
          have fo : ∀ k2, k2 ≠ 0 → k2 ≠ 1 →
              (listSwap l 0 (0 + 1)).getD k2 default = l.getD k2 default :=
            fun k2 h1 h2 => listSwap_getD_other l 0 1 k2 h1 h2
          cases k with
          | zero => rw [f1, show (0 : Nat) + 1 = 1 by omega, f2]; exact hswap
          | succ k1 =>
              cases k1 with
              | zero =>
                  rw [show (1 : Nat) + 1 = 2 by omega, f2,
                    fo 2 (by omega) (by omega)]
                  exact hP3 (by omega)
              | succ k2 =>
                  rw [fo (k2 + 2) (by omega) (by omega),
                    fo (k2 + 2 + 1) (by omega) (by omega)]
                  exact hP2 (k2 + 2) (by omega) hkm
        · rename_i hj1
          have hj : 1 ≤ j := by omega
          have e_fst : (listSwap l j (j + 1)).getD j default
              = l.getD (j + 1) default :=
            listSwap_getD_fst l j (j + 1) (by omega) hj1l
          have e_snd : (listSwap l j (j + 1)).getD (j + 1) default
              = l.getD j default :=
            listSwap_getD_snd l j (j + 1) (by omega) hj1l
          have e_oth : ∀ k2, k2 ≠ j → k2 ≠ j + 1 →
              (listSwap l j (j + 1)).getD k2 default = l.getD k2 default :=
            fun k2 h1 h2 => listSwap_getD_other l j (j + 1) k2 h1 h2
          refine ih (j - 1) (by omega) (listSwap l j (j + 1)) m (by omega)
            (by rw [listSwap_length]; exact hml) ?_ ?_ ?_ k hkm
          · intro k2 hk2
            rw [e_oth k2 (by omega) (by omega),
              e_oth (k2 + 1) (by omega) (by omega)]
            exact hP1 k2 (by omega)
          · intro k2 hk2a hk2b
            rcases Nat.lt_trichotomy k2 (j + 1) with h | h | h
            · have hkj : k2 = j := by omega
              subst hkj
              rw [e_fst, e_snd]
              exact hswap
            · subst h
              rw [e_snd, e_oth (j + 1 + 1) (by omega) (by omega)]
              have := hP3 (by omega)
              rwa [show j + 2 = j + 1 + 1 by omega] at this
            · rw [e_oth k2 (by omega) (by omega),
                e_oth (k2 + 1) (by omega) (by omega)]
              exact hP2 k2 (by omega) hk2b
          · intro hcon
            rw [e_oth (j - 1) (by omega) (by omega),
              show j - 1 + 2 = j + 1 by omega, e_snd]
            have := hP1 (j - 1) (by omega)
            rwa [show j - 1 + 1 = j by omega] at this

theorem passFrom_one_sorted {α : Type} [Inhabited α] (compar : α → α → Int)
    (htot : ∀ x y : α, compar x y ≤ 0 ∨ compar y x ≤ 0)
    (d : Nat) (hd : 0 < d) (hde : d = 1) (n : Nat) :
    ∀ (fuel i : Nat) (l : List α), n - i ≤ fuel → 1 ≤ i → n ≤ l.length →
      (∀ k, k + 1 < i →
        compar (l.getD k default) (l.getD (k + 1) default) ≤ 0) →
      ∀ k, k + 1 < n →
        compar ((passFrom compar d hd n l i).getD k default)
          ((passFrom compar d hd n l i).getD (k + 1) default) ≤ 0 := by
  subst hde
  intro fuel
  induction fuel with
  | zero =>
      intro i l hfuel hi hnl hsor k hk
      rw [passFrom]
      split
      · omega
      · exact hsor k (by omega)
  | succ fuel ih =>
      intro i l hfuel hi hnl hsor k hk
      rw [passFrom]
      split
      · rename_i hin
        have hs := sink_one_sorted compar htot 1 hd rfl (i - 1) l i (by omega)
          (by omega)
          (fun k2 hk2 => hsor k2 (by omega))
          (fun k2 ha hb => absurd hb (by omega))
          (fun hcon => absurd hcon (by omega))
        have hlen : (sink compar 1 hd l (i - 1)).length = l.length :=
          (sink_perm compar 1 hd (i - 1) l).length_eq
        exact ih (i + 1) (sink compar 1 hd l (i - 1)) (by omega) (by omega)
          (by omega) (fun k2 hk2 => hs k2 (by omega)) k hk
      · exact hsor k (by omega)

theorem shellLoop_sorted {α : Type} [Inhabited α] (compar : α → α → Int)
    (htot : ∀ x y : α, compar x y ≤ 0 ∨ compar y x ≤ 0) (n : Nat) :
    ∀ (dist : Nat) (l : List α), n ≤ l.length →
      ∀ k, k + 1 < n →
        compar ((shellLoop compar n l dist).getD k default)
          ((shellLoop compar n l dist).getD (k + 1) default) ≤ 0 := by
  intro dist
  induction dist using Nat.strong_induction_on with
  | _ dist ih =>
      intro l hnl k hk
      rw [shellLoop]
      split
      · rename_i hone
        exact passFrom_one_sorted compar htot (gapNext dist)
          (gapNext_pos dist) hone n (n - gapNext dist) (gapNext dist) l
          (Nat.le_refl _) (gapNext_pos dist) hnl
          (fun k2 hk2 => absurd hk2 (by omega)) k hk
      · rename_i hne
        have hlt : gapNext dist < dist := by
          rcases Nat.lt_or_ge dist 8 with h8 | h8
          · exact absurd (gapNext_eq_one dist h8) hne
          · exact gapNext_lt dist (by omega)
        have hlen : n ≤ (passFrom compar (gapNext dist) (gapNext_pos dist) n l
            (gapNext dist)).length := by
          rw [(passFrom_perm compar _ _ n _ l).length_eq]; exact hnl
        exact ih (gapNext dist) hlt _ hlen k hk

theorem backtrace_qsort_pairwise {α : Type} [Inhabited α]
    (compar : α → α → Int)
    (htot : ∀ x y : α, compar x y ≤ 0 ∨ compar y x ≤ 0)
    (htrans : ∀ x y z : α, compar x y ≤ 0 → compar y z ≤ 0 →
      compar x z ≤ 0)
    (l : List α) :
    List.Pairwise (fun x y => compar x y ≤ 0) (backtrace_qsort compar l) := by
  have hlen : (backtrace_qsort compar l).length = l.length :=
    (backtrace_qsort_perm compar l).length_eq
  have hadj : ∀ k, k + 1 < l.length →
      compar ((backtrace_qsort compar l).getD k default)
        ((backtrace_qsort compar l).getD (k + 1) default) ≤ 0 := by
    rw [backtrace_qsort]
    split
    · intro k hk
      exact absurd hk (by omega)
    · intro k hk
      exact shellLoop_sorted compar htot l.length l.length l (Nat.le_refl _)
        k hk
  have hchain : List.Chain' (fun x y => compar x y ≤ 0)
      (backtrace_qsort compar l) := by
    apply List.chain'_iff_get.mpr
    intro i hi
    have h1 : i < (backtrace_qsort compar l).length := by omega
    have h2 : i + 1 < (backtrace_qsort compar l).length := by omega
    have hx := hadj i (by omega)
    rw [getD_eq_get _ i h1, getD_eq_get _ (i + 1) h2] at hx
    exact hx
  letI : IsTrans α (fun x y => compar x y ≤ 0) :=
    ⟨fun a b c hab hbc => htrans a b c hab hbc⟩
  exact List.chain'_iff_pairwise.mp hchain

/-- Claim C1: for every array of records (any fixed element size, modelled at
record granularity) and every comparator that is a total preorder,
`backtrace_qsort` returns a permutation of its input that is sorted
non-decreasingly with respect to the comparator; the edge cases of zero or
one element are covered (the function returns the list unchanged, which is
trivially a sorted permutation). -/
theorem backtrace_qsort_sorts {α : Type} [Inhabited α]
    (compar : α → α → Int)
    (htot : ∀ x y : α, compar x y ≤ 0 ∨ compar y x ≤ 0)
    (htrans : ∀ x y z : α, compar x y ≤ 0 → compar y z ≤ 0 →
      compar x z ≤ 0)
    (l : List α) :
    List.Perm (backtrace_qsort compar l) l ∧
      List.Pairwise (fun x y => compar x y ≤ 0) (backtrace_qsort compar l) :=
  ⟨backtrace_qsort_perm compar l,
    backtrace_qsort_pairwise compar htot htrans l⟩

theorem backtrace_qsort_sorts_witness :
    List.Perm (backtrace_qsort (fun x y : Nat => (x : Int) - y) [3, 1, 2])
      [3, 1, 2] ∧
      List.Pairwise (fun x y : Nat => (x : Int) - y ≤ 0)
        (backtrace_qsort (fun x y : Nat => (x : Int) - y) [3, 1, 2]) :=
  backtrace_qsort_sorts (fun x y : Nat => (x : Int) - y)
    (fun x y => by
      show (x : Int) - y ≤ 0 ∨ (y : Int) - x ≤ 0
      omega)
    (fun x y z h1 h2 => by
      have g1 : (x : Int) - y ≤ 0 := h1
      have g2 : (y : Int) - z ≤ 0 := h2
      show (x : Int) - z ≤ 0
      omega) [3, 1, 2]

/-- Claim C7: the gap sequence of `backtrace_qsort` strictly decreases from
any starting value of at least 2, every gap is at least 1, and iterating the
gap update from any starting count reaches 1, after which the loop stops;
hence the shell sort terminates (in this embedding `backtrace_qsort` is a
total function by well-founded recursion on exactly this measure). -/
theorem backtrace_qsort_gap_terminates :
    (∀ g, 2 ≤ g → gapNext g < g) ∧ (∀ g, 1 ≤ gapNext g) ∧
      (∀ g, ∃ k, Nat.iterate gapNext k g = 1) := by
  refine ⟨fun g hg => gapNext_lt g hg, fun g => gapNext_pos g, ?_⟩
  intro g
  induction g using Nat.strong_induction_on with
  | _ g ih =>
      rcases Nat.lt_or_ge g 8 with h8 | h8
      · exact ⟨1, gapNext_eq_one g h8⟩
      · obtain ⟨k, hk⟩ := ih (gapNext g) (gapNext_lt g (by omega))
        exact ⟨k + 1, by rwa [Function.iterate_succ_apply]⟩

theorem backtrace_qsort_gap_terminates_witness :
    gapNext 1000 < 1000 ∧ (∃ k, Nat.iterate gapNext k 1000 = 1) :=
  ⟨backtrace_qsort_gap_terminates.1 1000 (by decide),
    backtrace_qsort_gap_terminates.2.2 1000⟩

/-- The 256-entry CRC table hard-coded in `coff_crc32` (pecoff.c lines
280-334), in source order. -/
def crc32_table : List Nat := [
    0x00000000, 0x77073096, 0xee0e612c, 0x990951ba, 0x076dc419, 0x706af48f,
    0xe963a535, 0x9e6495a3, 0x0edb8832, 0x79dcb8a4, 0xe0d5e91e, 0x97d2d988,
    0x09b64c2b, 0x7eb17cbd, 0xe7b82d07, 0x90bf1d91, 0x1db71064, 0x6ab020f2,
    0xf3b97148, 0x84be41de, 0x1adad47d, 0x6ddde4eb, 0xf4d4b551, 0x83d385c7,
    0x136c9856, 0x646ba8c0, 0xfd62f97a, 0x8a65c9ec, 0x14015c4f, 0x63066cd9,
    0xfa0f3d63, 0x8d080df5, 0x3b6e20c8, 0x4c69105e, 0xd56041e4, 0xa2677172,
    0x3c03e4d1, 0x4b04d447, 0xd20d85fd, 0xa50ab56b, 0x35b5a8fa, 0x42b2986c,
    0xdbbbc9d6, 0xacbcf940, 0x32d86ce3, 0x45df5c75, 0xdcd60dcf, 0xabd13d59,
    0x26d930ac, 0x51de003a, 0xc8d75180, 0xbfd06116, 0x21b4f4b5, 0x56b3c423,
    0xcfba9599, 0xb8bda50f, 0x2802b89e, 0x5f058808, 0xc60cd9b2, 0xb10be924,
    0x2f6f7c87, 0x58684c11, 0xc1611dab, 0xb6662d3d, 0x76dc4190, 0x01db7106,
    0x98d220bc, 0xefd5102a, 0x71b18589, 0x06b6b51f, 0x9fbfe4a5, 0xe8b8d433,
    0x7807c9a2, 0x0f00f934, 0x9609a88e, 0xe10e9818, 0x7f6a0dbb, 0x086d3d2d,
    0x91646c97, 0xe6635c01, 0x6b6b51f4, 0x1c6c6162, 0x856530d8, 0xf262004e,
    0x6c0695ed, 0x1b01a57b, 0x8208f4c1, 0xf50fc457, 0x65b0d9c6, 0x12b7e950,
    0x8bbeb8ea, 0xfcb9887c, 0x62dd1ddf, 0x15da2d49, 0x8cd37cf3, 0xfbd44c65,
    0x4db26158, 0x3ab551ce, 0xa3bc0074, 0xd4bb30e2, 0x4adfa541, 0x3dd895d7,
    0xa4d1c46d, 0xd3d6f4fb, 0x4369e96a, 0x346ed9fc, 0xad678846, 0xda60b8d0,
    0x44042d73, 0x33031de5, 0xaa0a4c5f, 0xdd0d7cc9, 0x5005713c, 0x270241aa,
    0xbe0b1010, 0xc90c2086, 0x5768b525, 0x206f85b3, 0xb966d409, 0xce61e49f,
    0x5edef90e, 0x29d9c998, 0xb0d09822, 0xc7d7a8b4, 0x59b33d17, 0x2eb40d81,
    0xb7bd5c3b, 0xc0ba6cad, 0xedb88320, 0x9abfb3b6, 0x03b6e20c, 0x74b1d29a,
    0xead54739, 0x9dd277af, 0x04db2615, 0x73dc1683, 0xe3630b12, 0x94643b84,
    0x0d6d6a3e, 0x7a6a5aa8, 0xe40ecf0b, 0x9309ff9d, 0x0a00ae27, 0x7d079eb1,
    0xf00f9344, 0x8708a3d2, 0x1e01f268, 0x6906c2fe, 0xf762575d, 0x806567cb,
    0x196c3671, 0x6e6b06e7, 0xfed41b76, 0x89d32be0, 0x10da7a5a, 0x67dd4acc,
    0xf9b9df6f, 0x8ebeeff9, 0x17b7be43, 0x60b08ed5, 0xd6d6a3e8, 0xa1d1937e,
    0x38d8c2c4, 0x4fdff252, 0xd1bb67f1, 0xa6bc5767, 0x3fb506dd, 0x48b2364b,
    0xd80d2bda, 0xaf0a1b4c, 0x36034af6, 0x41047a60, 0xdf60efc3, 0xa867df55,
    0x316e8eef, 0x4669be79, 0xcb61b38c, 0xbc66831a, 0x256fd2a0, 0x5268e236,
    0xcc0c7795, 0xbb0b4703, 0x220216b9, 0x5505262f, 0xc5ba3bbe, 0xb2bd0b28,
    0x2bb45a92, 0x5cb36a04, 0xc2d7ffa7, 0xb5d0cf31, 0x2cd99e8b, 0x5bdeae1d,
    0x9b64c2b0, 0xec63f226, 0x756aa39c, 0x026d930a, 0x9c0906a9, 0xeb0e363f,
    0x72076785, 0x05005713, 0x95bf4a82, 0xe2b87a14, 0x7bb12bae, 0x0cb61b38,
    0x92d28e9b, 0xe5d5be0d, 0x7cdcefb7, 0x0bdbdf21, 0x86d3d2d4, 0xf1d4e242,
    0x68ddb3f8, 0x1fda836e, 0x81be16cd, 0xf6b9265b, 0x6fb077e1, 0x18b74777,
    0x88085ae6, 0xff0f6a70, 0x66063bca, 0x11010b5c, 0x8f659eff, 0xf862ae69,
    0x616bffd3, 0x166ccf45, 0xa00ae278, 0xd70dd2ee, 0x4e048354, 0x3903b3c2,
    0xa7672661, 0xd06016f7, 0x4969474d, 0x3e6e77db, 0xaed16a4a, 0xd9d65adc,
    0x40df0b66, 0x37d83bf0, 0xa9bcae53, 0xdebb9ec5, 0x47b2cf7f, 0x30b5ffe9,
    0xbdbdf21c, 0xcabac28a, 0x53b39330, 0x24b4a3a6, 0xbad03605, 0xcdd70693,
    0x54de5729, 0x23d967bf, 0xb3667a2e, 0xc4614ab8, 0x5d681b02, 0x2a6f2b94,
    0xb40bbe37, 0xc30c8ea1, 0x5a05df1b, 0x2d02ef8d]

/-- Model of `coff_crc32` (pecoff.c lines 277-341): table-driven CRC over the
byte string `buf`, with the accumulator complemented on entry and the result
complemented on return (`crc` is a `uint32_t`, so `~crc` is
`crc ^^^ 0xFFFFFFFF`). -/
def coff_crc32 (crc : Nat) (buf : List Nat) : Nat :=
  (buf.foldl
    (fun c b => crc32_table.getD ((c ^^^ b) &&& 0xff) 0 ^^^ (c >>> 8))
    (crc ^^^ 0xFFFFFFFF)) ^^^ 0xFFFFFFFF

/-- Reference routine following the words of the specification: one step of
the bitwise CRC-32 division with reflected polynomial `0xEDB88320`. -/
def crcBitStep (c : Nat) : Nat :=
  if c &&& 1 = 1 then (c >>> 1) ^^^ 0xEDB88320 else c >>> 1

/-- Reference routine following the words of the specification: eight bit
steps process one byte. -/
def crcByteStep (c : Nat) : Nat :=
  crcBitStep (crcBitStep (crcBitStep (crcBitStep
    (crcBitStep (crcBitStep (crcBitStep (crcBitStep c)))))))

/-- Reference routine following the words of the specification: the GNU
debuglink CRC-32 of a byte string, bitwise polynomial division with
polynomial `0xEDB88320`, complement in and complement out. -/
def specGnuDebuglinkCrc (data : List Nat) : Nat :=
  (data.foldl (fun c b => crcByteStep (c ^^^ b)) 0xFFFFFFFF) ^^^ 0xFFFFFFFF

theorem xor_shiftRight_distrib (x y n : Nat) :
    (x ^^^ y) >>> n = (x >>> n) ^^^ (y >>> n) := by
  apply Nat.eq_of_testBit_eq
  intro i
  simp [Nat.testBit_shiftRight, Nat.testBit_xor]

theorem xor_cancel_mid (p b : Nat) : p ^^^ (b ^^^ p) = b := by
  rw [Nat.xor_comm b p, ← Nat.xor_assoc, Nat.xor_self, Nat.zero_xor]

theorem crcBitStep_eq (c : Nat) :
    crcBitStep c = (c >>> 1) ^^^ (if c &&& 1 = 1 then 0xEDB88320 else 0) := by
  rw [crcBitStep]
  split
  · rfl
  · rw [Nat.xor_zero]

theorem and_one_cases (x : Nat) : x &&& 1 = 0 ∨ x &&& 1 = 1 := by
  rw [Nat.and_one_is_mod]
  exact Nat.mod_two_eq_zero_or_one x

theorem crcBitStep_xor (x y : Nat) :
    crcBitStep (x ^^^ y) = crcBitStep x ^^^ crcBitStep y := by
  rw [crcBitStep_eq, crcBitStep_eq, crcBitStep_eq, xor_shiftRight_distrib,
    Nat.and_xor_distrib_right]
  rcases and_one_cases x with hx | hx <;> rcases and_one_cases y with hy | hy <;>
    rw [hx, hy]
  · norm_num
  · norm_num
    rw [Nat.xor_assoc]
  · norm_num
    rw [Nat.xor_assoc, Nat.xor_comm (y >>> 1), ← Nat.xor_assoc]
  · norm_num
    rw [Nat.xor_assoc, xor_cancel_mid]

theorem crcByteStep_xor (x y : Nat) :
    crcByteStep (x ^^^ y) = crcByteStep x ^^^ crcByteStep y := by
  unfold crcByteStep
  rw [crcBitStep_xor, crcBitStep_xor, crcBitStep_xor, crcBitStep_xor,
    crcBitStep_xor, crcBitStep_xor, crcBitStep_xor, crcBitStep_xor]

theorem crcBitStep_double (m : Nat) : crcBitStep (m * 2) = m := by
  rw [crcBitStep, Nat.and_one_is_mod]
  rw [if_neg (by omega)]
  rw [Nat.shiftRight_eq_div_pow]
  norm_num

theorem crcByteStep_mul256 (h : Nat) : crcByteStep (h * 256) = h := by
  unfold crcByteStep
  rw [show h * 256 = h * 128 * 2 by ring, crcBitStep_double,
    show h * 128 = h * 64 * 2 by ring, crcBitStep_double,
    show h * 64 = h * 32 * 2 by ring, crcBitStep_double,
    show h * 32 = h * 16 * 2 by ring, crcBitStep_double,
    show h * 16 = h * 8 * 2 by ring, crcBitStep_double,
    show h * 8 = h * 4 * 2 by ring, crcBitStep_double,
    show h * 4 = h * 2 * 2 by ring, crcBitStep_double, crcBitStep_double]

theorem byte_decompose (u : Nat) :
    u = (u &&& 255) ^^^ ((u >>> 8) <<< 8) := by
  apply Nat.eq_of_testBit_eq
  intro i
  simp only [Nat.testBit_xor, Nat.testBit_and, Nat.testBit_shiftLeft,
    Nat.testBit_shiftRight]
  rw [show (255 : Nat) = 2 ^ 8 - 1 by norm_num, Nat.testBit_two_pow_sub_one]
  rcases Nat.lt_or_ge i 8 with h | h
  · simp [h, Nat.not_le.mpr h]
  · simp [Nat.not_lt.mpr h, h, Nat.add_sub_cancel' h]

set_option maxRecDepth 100000 in
theorem crc32_table_eq : crc32_table = (List.range 256).map crcByteStep := by
  decide

theorem crc32_table_getD (lo : Nat) (h : lo < 256) :
    crc32_table.getD lo 0 = crcByteStep lo := by
  rw [crc32_table_eq, List.getD_eq_getElem?_getD]
  simp [List.getElem?_map, List.getElem?_range, h]

theorem crcByteStep_decomp (u : Nat) :
    crcByteStep u = crc32_table.getD (u &&& 255) 0 ^^^ (u >>> 8) := by
  have hb : u &&& 255 ≤ 255 := Nat.and_le_right
  have e1 : crcByteStep ((u >>> 8) <<< 8) = u >>> 8 := by
    rw [show (u >>> 8) <<< 8 = (u >>> 8) * 256 by rw [Nat.shiftLeft_eq]]
    exact crcByteStep_mul256 (u >>> 8)
  conv_lhs => rw [byte_decompose u]
  rw [crcByteStep_xor, e1, crc32_table_getD (u &&& 255) (by omega)]

theorem coff_crc32_step_eq (c b : Nat) (hb : b < 256) :
    crc32_table.getD ((c ^^^ b) &&& 0xff) 0 ^^^ (c >>> 8)
      = crcByteStep (c ^^^ b) := by
  rw [crcByteStep_decomp (c ^^^ b)]
  congr 1
  rw [xor_shiftRight_distrib]
  rw [show b >>> 8 = 0 by
    rw [Nat.shiftRight_eq_div_pow]
    exact Nat.div_eq_of_lt (by norm_num; omega)]
  rw [Nat.xor_zero]

theorem coff_crc32_fold_eq :
    ∀ (buf : List Nat) (c : Nat), (∀ b ∈ buf, b < 256) →
      buf.foldl
        (fun c b => crc32_table.getD ((c ^^^ b) &&& 0xff) 0 ^^^ (c >>> 8)) c
        = buf.foldl (fun c b => crcByteStep (c ^^^ b)) c := by
  intro buf
  induction buf with
  | nil => intro c _; rfl
  | cons b rest ih =>
      intro c hb
      simp only [List.foldl_cons]
      rw [coff_crc32_step_eq c b (hb b (by simp))]
      exact ih _ (fun x hx => hb x (by simp [hx]))

/-- Claim C2: for every byte string, `coff_crc32` starting from `crc = 0`
computes exactly the GNU debuglink CRC-32: the reflected table-driven CRC
with polynomial `0xEDB88320`, accumulator complemented on entry and result
complemented on return, agrees with the reference bitwise
polynomial-division routine `specGnuDebuglinkCrc` on the same string. -/
theorem coff_crc32_matches_reference (buf : List Nat)
    (hb : ∀ b ∈ buf, b < 256) :
    coff_crc32 0 buf = specGnuDebuglinkCrc buf := by
  rw [coff_crc32, specGnuDebuglinkCrc]
  rw [coff_crc32_fold_eq buf (0 ^^^ 0xFFFFFFFF) hb]
  rw [Nat.zero_xor]

theorem coff_crc32_matches_reference_witness :
    (∀ b ∈ [104, 101, 108, 108, 111, 0, 255], b < 256) ∧
      coff_crc32 0 [104, 101, 108, 108, 111, 0, 255]
        = specGnuDebuglinkCrc [104, 101, 108, 108, 111, 0, 255] :=
  ⟨by decide, coff_crc32_matches_reference [104, 101, 108, 108, 111, 0, 255]
    (by decide)⟩

/-- Environment for the debug-file search of pecoff.c: `openFd` models
`backtrace_open` (`some fd` on success, `none` for the C return of -1).
Allocation in `coff_try_debugfile` is assumed to succeed, as its only effect
on the result is an early -1 on out-of-memory. -/
structure DebugOpenEnv where
  openFd : List Char → Option Nat

/-- The directory part computed by `coff_find_debugfile_by_debuglink`
(pecoff.c lines 450-469): everything up to and including the last `/` or
`\` of the filename, empty when there is no separator. -/
def coff_dirpart (filename : List Char) : List Char :=
  match filename.reverse.findIdx? (fun c => c == '/' || c == '\\') with
  | none => []
  | some k => filename.take (filename.length - k)

/-- Model of `coff_try_debugfile` (pecoff.c lines 387-424): open the file
named by the concatenation of the two path pieces and the debuglink name. -/
def coff_try_debugfile (env : DebugOpenEnv) (pre1 pre2 dlname : List Char) :
    Option Nat :=
  env.openFd (pre1 ++ pre2 ++ dlname)

/-- The `".debug/"` path piece of pecoff.c line 482. -/
def debugSubdirPath : List Char := String.toList ".debug/"

/-- The `"/usr/lib/debug/"` path piece of pecoff.c line 493. -/
def usrLibDebugPath : List Char := String.toList "/usr/lib/debug/"

/-- Model of `coff_find_debugfile_by_debuglink` (pecoff.c lines 429-512) in
the non-Windows configuration (`HAVE_WINDOWS_H` undefined): probe the
primary file's directory, then its `.debug/` subdirectory, then
`/usr/lib/debug/` prefixed to the directory, returning the first success. -/
def coff_find_debugfile_by_debuglink (env : DebugOpenEnv)
    (filename dlname : List Char) : Option Nat :=
  match coff_try_debugfile env (coff_dirpart filename) [] dlname with
  | some d => some d
  | none =>
    match coff_try_debugfile env (coff_dirpart filename)
        debugSubdirPath dlname with
    | some d => some d
    | none =>
      coff_try_debugfile env usrLibDebugPath (coff_dirpart filename) dlname

/-- Model of `coff_open_debugfile_by_debuglink` (pecoff.c lines 517-552):
find a candidate, and when the recorded CRC is nonzero compare it with the
CRC of the candidate's full bytes (`fileCrc` models `coff_crc32_file`);
on mismatch the candidate is closed and -1 (`none`) is returned. -/
def coff_open_debugfile_by_debuglink (env : DebugOpenEnv)
    (fileCrc : Nat → Nat) (filename dlname : List Char)
    (debuglink_crc : Nat) : Option Nat :=
  match coff_find_debugfile_by_debuglink env filename dlname with
  | none => none
  | some d =>
    if debuglink_crc ≠ 0 then
      if fileCrc d ≠ debuglink_crc then none else some d
    else some d

/-- Which debug-info source the `coff_add` debuglink block (pecoff.c lines
1201-1253) ends up using. -/
inductive CoffDebugSource where
  | external (d : Nat)
  | embedded
deriving DecidableEq

/-- Control flow of the `.gnu_debuglink` block of `coff_add` (pecoff.c lines
1201-1253), after the symbol table was already registered: if the separate
debug file opens and parses, it is used; otherwise processing falls back to
the primary file's embedded debug sections.  The Boolean records the
already-built symbol table, which no path of the block touches. -/
def coff_add_debuglink_flow (env : DebugOpenEnv) (fileCrc : Nat → Nat)
    (externalParseOk : Nat → Bool) (filename dlname : List Char)
    (debuglink_crc : Nat) (symTableBuilt : Bool) : CoffDebugSource × Bool :=
  match coff_open_debugfile_by_debuglink env fileCrc filename dlname
      debuglink_crc with
  | none => (CoffDebugSource.embedded, symTableBuilt)
  | some d =>
    if externalParseOk d then (CoffDebugSource.external d, symTableBuilt)
    else (CoffDebugSource.embedded, symTableBuilt)

/-- Claim C6: for every primary filename and debuglink name, the debug-file
search probes the candidate paths in exactly this order, stopping at the
first that opens: the primary file's directory joined with the name, then
the `.debug` subdirectory of that directory joined with the name, then
`/usr/lib/debug` followed by the primary's directory and the name. -/
theorem coff_find_debugfile_probe_order (env : DebugOpenEnv)
    (filename dlname : List Char) :
    coff_find_debugfile_by_debuglink env filename dlname =
      [coff_dirpart filename ++ dlname,
       coff_dirpart filename ++ debugSubdirPath ++ dlname,
       usrLibDebugPath ++ coff_dirpart filename ++ dlname
      ].findSome? env.openFd := by
  rw [coff_find_debugfile_by_debuglink]
  simp only [coff_try_debugfile, List.append_nil]
  cases h1 : env.openFd (coff_dirpart filename ++ dlname) with
  | some d => simp [List.findSome?, List.append_assoc, h1]
  | none =>
    cases h2 : env.openFd (coff_dirpart filename ++ (debugSubdirPath
        ++ dlname)) with
    | some d => simp [List.findSome?, List.append_assoc, h1, h2]
    | none =>
      cases h3 : env.openFd (usrLibDebugPath ++ (coff_dirpart filename
          ++ dlname)) with
      | some d => simp [List.findSome?, List.append_assoc, h1, h2, h3]
      | none => simp [List.findSome?, List.append_assoc, h1, h2, h3]

/-- Claim C3, counterexample to the claim as stated: when the recorded CRC
is 0 the code performs no CRC check at all, so a candidate whose computed
CRC (here 5) differs from the recorded CRC (here 0) is still returned and
used, not closed with -1. -/
theorem coff_debuglink_crc_gate_cex :
    (fun _ : Nat => 5) 7 ≠ 0 ∧
      coff_open_debugfile_by_debuglink
        ⟨fun s => if s == String.toList "d" then some 7 else none⟩
        (fun _ => 5) (String.toList "a") (String.toList "d") 0 = some 7 := by
  constructor
  · decide
  · decide

/-- Claim C3 (amended): for every candidate debug file located via a
`.gnu_debuglink` section whose recorded CRC is nonzero, if the CRC computed
over the candidate's full bytes differs from the recorded CRC, the candidate
is closed and never used (`coff_open_debugfile_by_debuglink` returns -1),
even when it is the only candidate, and the `coff_add` debuglink block falls
back to the primary file's embedded debug sections while the already-built
symbol table survives. -/
theorem coff_debuglink_crc_gate (env : DebugOpenEnv) (fileCrc : Nat → Nat)
    (externalParseOk : Nat → Bool) (filename dlname : List Char) (crc : Nat)
    (sym : Bool) (hnz : crc ≠ 0) (hmis : ∀ d, fileCrc d ≠ crc) :
    coff_open_debugfile_by_debuglink env fileCrc filename dlname crc = none ∧
      coff_add_debuglink_flow env fileCrc externalParseOk filename dlname crc
        sym = (CoffDebugSource.embedded, sym) := by
  have h1 : coff_open_debugfile_by_debuglink env fileCrc filename dlname crc
      = none := by
    rw [coff_open_debugfile_by_debuglink]
    cases coff_find_debugfile_by_debuglink env filename dlname with
    | none => rfl
    | some d => simp [hnz, hmis d]
  exact ⟨h1, by rw [coff_add_debuglink_flow, h1]⟩

theorem coff_debuglink_crc_gate_witness :
    (9 : Nat) ≠ 0 ∧ (∀ d : Nat, (fun _ : Nat => 5) d ≠ 9) ∧
      (coff_open_debugfile_by_debuglink
          ⟨fun s => if s == String.toList "d" then some 7 else none⟩
          (fun _ => 5) (String.toList "a") (String.toList "d") 9 = none ∧
        coff_add_debuglink_flow
          ⟨fun s => if s == String.toList "d" then some 7 else none⟩
          (fun _ => 5) (fun _ => true) (String.toList "a")
          (String.toList "d") 9 true = (CoffDebugSource.embedded, true)) :=
  ⟨by decide, fun d => by simp,
    coff_debuglink_crc_gate _ _ _ _ _ _ _ (by decide) (fun d => by simp)⟩

/-- Environment for one dSYM candidate examined by `macho_try_dwarf`
(macho.c lines 318-568): `commandsOk` is whether the open of the candidate
and `macho_get_commands` succeeded, `uuid` the result of `macho_get_uuid`
on the candidate (`none` when the candidate carries no `LC_UUID`), and
`dwarfRegisterOk` whether the `__DWARF` segment scan, the debug view and
`backtrace_dwarf_add` all succeed. -/
structure MachoDwarfEnv where
  commandsOk : Bool
  uuid : Option (List Nat)
  dwarfRegisterOk : Bool

/-- Control flow of `macho_try_dwarf` (macho.c lines 318-568).  The result is
`(returned 1, DWARF sections registered)`: each `goto end` before
`backtrace_dwarf_add` yields `(false, false)`; only the full success path
registers the sections and returns 1. -/
def macho_try_dwarf (env : MachoDwarfEnv) (executableUuid : List Nat) :
    Bool × Bool :=
  if ¬ env.commandsOk then (false, false)
  else
    match env.uuid with
    | none => (false, false)
    | some u =>
      if u ≠ executableUuid then (false, false)
      else if env.dwarfRegisterOk then (true, true) else (false, false)

/-- The candidate loop of `macho_try_dsym` (macho.c lines 594-609): try each
regular file in `<bundle>/Contents/Resources/DWARF` with `macho_try_dwarf`,
stopping at the first success. -/
def macho_try_dsym_scan (envs : List Char → MachoDwarfEnv)
    (executableUuid : List Nat) : List (List Char) → Bool
  | [] => false
  | c :: rest =>
    if (macho_try_dwarf (envs c) executableUuid).1 then true
    else macho_try_dsym_scan envs executableUuid rest

/-- Claim C4: a dSYM candidate whose `LC_UUID` differs from the primary
executable's (or that has none) is never used: `macho_try_dwarf` returns 0
without registering any DWARF sections, and the `macho_try_dsym` scan moves
on to the remaining candidates. -/
theorem macho_try_dwarf_uuid_gate (env : MachoDwarfEnv)
    (executableUuid : List Nat) (h : env.uuid ≠ some executableUuid) :
    macho_try_dwarf env executableUuid = (false, false) ∧
      ∀ (envs : List Char → MachoDwarfEnv) (c : List Char)
        (rest : List (List Char)), envs c = env →
        macho_try_dsym_scan envs executableUuid (c :: rest)
          = macho_try_dsym_scan envs executableUuid rest := by
  have h1 : macho_try_dwarf env executableUuid = (false, false) := by
    rw [macho_try_dwarf]
    cases hc : env.commandsOk with
    | false => simp
    | true =>
      rw [if_neg (not_not_intro rfl)]
      cases hu : env.uuid with
      | none => rfl
      | some u =>
        have hne : u ≠ executableUuid := by
          intro he; exact h (by rw [hu, he])
        simp [hne]
  refine ⟨h1, ?_⟩
  intro envs c rest henv
  rw [macho_try_dsym_scan, henv, h1]
  simp

theorem macho_try_dwarf_uuid_gate_witness :
    (MachoDwarfEnv.mk true (some [1, 2]) true).uuid ≠ some [3, 4] ∧
      (macho_try_dwarf ⟨true, some [1, 2], true⟩ [3, 4] = (false, false) ∧
        ∀ (envs : List Char → MachoDwarfEnv) (c : List Char)
          (rest : List (List Char)), envs c = ⟨true, some [1, 2], true⟩ →
          macho_try_dsym_scan envs [3, 4] (c :: rest)
            = macho_try_dsym_scan envs [3, 4] rest) :=
  ⟨by decide, macho_try_dwarf_uuid_gate ⟨true, some [1, 2], true⟩ [3, 4]
    (by decide)⟩

/-- Little-endian read of a 4-byte word from a byte buffer, modelling the
`memcpy` into a `uint32_t` on a little-endian host. -/
def readU32LE (buf : List Nat) (off : Nat) : Nat :=
  buf.getD off 0 + 256 * buf.getD (off + 1) 0 + 65536 * buf.getD (off + 2) 0
    + 16777216 * buf.getD (off + 3) 0

/-- Little-endian read of an 8-byte word from a byte buffer. -/
def readU64LE (buf : List Nat) (off : Nat) : Nat :=
  readU32LE buf off + 4294967296 * readU32LE buf (off + 4)

/-- Model of `macho_file_to_host_u32` (macho.c lines 78-92): byte swap of a
32-bit value when the file's endianness differs from the host's. -/
def macho_file_to_host_u32 (bytesSwapped : Bool) (input : Nat) : Nat :=
  if bytesSwapped then
    ((input >>> 24) &&& 0x000000FF) ||| ((input >>> 8) &&& 0x0000FF00)
      ||| ((input <<< 8) &&& 0x00FF0000) ||| ((input <<< 24) &&& 0xFF000000)
  else input

/-- Model of `macho_file_to_host_u64` (macho.c lines 94-108): swap the two
32-bit halves (the `(uint32_t)` casts are the `&&& 0xFFFFFFFF` masks). -/
def macho_file_to_host_u64 (bytesSwapped : Bool) (input : Nat) : Nat :=
  if bytesSwapped then
    macho_file_to_host_u32 bytesSwapped ((input >>> 32) &&& 0xFFFFFFFF)
      ||| (macho_file_to_host_u32 bytesSwapped (input &&& 0xFFFFFFFF) <<< 32)
  else input

/-- The load-command constant `LC_SEGMENT`. -/
def LC_SEGMENT : Nat := 0x1

/-- The load-command constant `LC_SEGMENT_64`. -/
def LC_SEGMENT_64 : Nat := 0x19

/-- The `strncmp (segname, "__TEXT", 16) == 0` test of macho.c lines 276 and
299: the sixteen-byte `segname` field matches when its first six bytes spell
`__TEXT` and the seventh is the terminating NUL. -/
def isTextSegname (buf : List Nat) (off : Nat) : Bool :=
  (buf.getD off 0 == 95) && (buf.getD (off + 1) 0 == 95)
    && (buf.getD (off + 2) 0 == 84) && (buf.getD (off + 3) 0 == 69)
    && (buf.getD (off + 4) 0 == 88) && (buf.getD (off + 5) 0 == 84)
    && (buf.getD (off + 6) 0 == 0)

/-- The load-command loop of `macho_get_base` (macho.c lines 237-316) on the
raw bytes of the commands view (`buf.length` is `commands_total_size`), on a
little-endian host.  Faithful to the source, including its defect: in the
`LC_SEGMENT_64` branch the source casts the command to the 32-bit
`struct segment_command`, so it reads the 4-byte fields at offsets 24
(`vmaddr` of the 32-bit layout) and 32 (`fileoff` of the 32-bit layout, which
inside a real `segment_command_64` holds the low half of `vmsize`) and widens
them through `macho_file_to_host_u64`.  `none` models `return 0` (truncation
or no `__TEXT` segment); the subtraction wraps as `uint64_t`. -/
def macho_get_base_loop (bytesSwapped : Bool) (buf : List Nat) :
    Nat → Nat → Option Nat
  | 0, _ => none
  | count + 1, off =>
    if buf.length < off + 8 then none
    else
      let cmd := macho_file_to_host_u32 bytesSwapped (readU32LE buf off)
      let cmdsize := macho_file_to_host_u32 bytesSwapped
        (readU32LE buf (off + 4))
      if cmd = LC_SEGMENT then
        if buf.length < off + 56 then none
        else if isTextSegname buf (off + 8) then
          some ((2 ^ 64
            + macho_file_to_host_u32 bytesSwapped (readU32LE buf (off + 24))
            - macho_file_to_host_u32 bytesSwapped (readU32LE buf (off + 32)))
            % 2 ^ 64)
        else macho_get_base_loop bytesSwapped buf count (off + cmdsize)
      else if cmd = LC_SEGMENT_64 then
        if buf.length < off + 72 then none
        else if isTextSegname buf (off + 8) then
          some ((2 ^ 64
            + macho_file_to_host_u64 bytesSwapped (readU32LE buf (off + 24))
            - macho_file_to_host_u64 bytesSwapped (readU32LE buf (off + 32)))
            % 2 ^ 64)
        else macho_get_base_loop bytesSwapped buf count (off + cmdsize)
      else macho_get_base_loop bytesSwapped buf count (off + cmdsize)

/-- Model of `macho_get_base` (macho.c lines 237-316): walk `count` load
commands from offset 0. -/
def macho_get_base (bytesSwapped : Bool) (buf : List Nat) (count : Nat) :
    Option Nat :=
  macho_get_base_loop bytesSwapped buf count 0

/-- A single well-formed `LC_SEGMENT_64` load command (72 bytes, little
endian, not byte-swapped) whose segment is `__TEXT` with
`vmaddr = 0x100000000`, `vmsize = 0x1000`, `fileoff = 0`. -/
def machoSeg64TextCmd : List Nat :=
  [0x19, 0, 0, 0,  72, 0, 0, 0,
   95, 95, 84, 69, 88, 84, 0, 0,  0, 0, 0, 0, 0, 0, 0, 0,
   0, 0, 0, 0, 1, 0, 0, 0,
   0, 0x10, 0, 0, 0, 0, 0, 0,
   0, 0, 0, 0, 0, 0, 0, 0,
   0, 0, 0, 0, 0, 0, 0, 0,
   0, 0, 0, 0,  0, 0, 0, 0,
   0, 0, 0, 0,  0, 0, 0, 0]

/-- Claim C5, exhibiting the defect: on a Mach-O with a 64-bit `__TEXT`
segment whose true `vmaddr` is `0x100000000` and `fileoff` is 0,
`macho_get_base` should store `vmaddr - fileoff = 0x100000000`, but the
`LC_SEGMENT_64` branch reads through the 32-bit `struct segment_command`
layout and returns `0xFFFFFFFFFFFFF000` (the low half of `vmaddr`, 0, minus
the low half of `vmsize`, `0x1000`, wrapped as `uint64_t`). -/
theorem macho_get_base_seg64_misread :
    macho_get_base false machoSeg64TextCmd 1 = some 0xFFFFFFFFFFFFF000 ∧
      (0xFFFFFFFFFFFFF000 : Nat) ≠ 0x100000000 - 0 := by
  constructor
  · decide
  · decide

/-- Little-endian read of a 2-byte word, modelling `coff_read2`. -/
def readU16LE (buf : List Nat) (off : Nat) : Nat :=
  buf.getD off 0 + 256 * buf.getD (off + 1) 0

/-- The PE header offset derived from the MS-DOS stub by `coff_add`
(pecoff.c lines 967-974): when the file starts with `MZ`, the 4-byte word at
`0x3c` (`e_lfanew`); otherwise 0. -/
def coff_fhdr_off (buf : List Nat) : Nat :=
  if buf.getD 0 0 = 77 ∧ buf.getD 1 0 = 90 then readU32LE buf 0x3c else 0

/-- The `magic_ok` computation of `coff_add` (pecoff.c lines 984-997): the
header offset is nonzero (an MZ stub named it) and the four bytes there are
`"PE\0\0"`. -/
def coff_pe_sig_ok (buf : List Nat) : Prop :=
  coff_fhdr_off buf ≠ 0 ∧ buf.getD (coff_fhdr_off buf) 0 = 80
    ∧ buf.getD (coff_fhdr_off buf + 1) 0 = 69
    ∧ buf.getD (coff_fhdr_off buf + 2) 0 = 0
    ∧ buf.getD (coff_fhdr_off buf + 3) 0 = 0

instance (buf : List Nat) : Decidable (coff_pe_sig_ok buf) := by
  rw [coff_pe_sig_ok]; infer_instance

/-- `fhdr.number_of_sections`, read at offset 2 of the file header, which
starts 4 bytes past the PE signature. -/
def coff_sects_num (buf : List Nat) : Nat :=
  readU16LE buf (coff_fhdr_off buf + 4 + 2)

/-- `fhdr.size_of_optional_header`, at offset 16 of the file header. -/
def coff_size_opt (buf : List Nat) : Nat :=
  readU16LE buf (coff_fhdr_off buf + 4 + 16)

/-- `opt_hdr->magic`, the first 2 bytes of the optional header, which starts
right after the 20-byte file header. -/
def coff_opt_magic (buf : List Nat) : Nat :=
  readU16LE buf (coff_fhdr_off buf + 4 + 20)

/-- `PE_MAGIC` (PE32) of pecoff.c line 134. -/
def PE_MAGIC : Nat := 0x10b

/-- `PEP_MAGIC` (PE32+) of pecoff.c line 135. -/
def PEP_MAGIC : Nat := 0x20b

/-- Outcome of the header stage of `coff_add` (pecoff.c lines 962-1042).
`viewFail` is a failed `backtrace_get_view` (reported with the view layer's
own errno); `formatError msg errnum` is an `error_callback (data, msg,
errnum)` followed by `goto fail`, which returns 0 before any symbol table or
DWARF data is added to the state; `ok` carries `is_64` and the image base
once every header check passed. -/
inductive CoffHeaderResult where
  | viewFail
  | formatError (msg : String) (errnum : Int)
  | ok (is64 : Bool) (imageBase : Nat)
deriving DecidableEq

/-- The header stage of `coff_add` (pecoff.c lines 962-1042) on the raw file
bytes, little-endian host: map the DOS stub, locate and verify the PE
signature, then read the file header and check the optional header magic
(`is_64` and the image base are only set when `size_of_optional_header`
exceeds `sizeof (b_coff_optional_header)` = 32). -/
def coff_add_header (buf : List Nat) : CoffHeaderResult :=
  if buf.length < 0x40 then CoffHeaderResult.viewFail
  else if buf.length < coff_fhdr_off buf + 24 then CoffHeaderResult.viewFail
  else if ¬ coff_pe_sig_ok buf then
    CoffHeaderResult.formatError "executable file is not COFF" 0
  else if buf.length < coff_fhdr_off buf + 24 + coff_size_opt buf
      + coff_sects_num buf * 40 then CoffHeaderResult.viewFail
  else if 32 < coff_size_opt buf then
    if coff_opt_magic buf = PE_MAGIC then
      CoffHeaderResult.ok false (readU32LE buf (coff_fhdr_off buf + 52))
    else if coff_opt_magic buf = PEP_MAGIC then
      CoffHeaderResult.ok true (readU64LE buf (coff_fhdr_off buf + 48))
    else CoffHeaderResult.formatError "bad magic in PE optional header" 0
  else CoffHeaderResult.ok false 0

/-- Claim C8: an input file without a valid PE signature (no `"PE\0\0"` at
the offset named by the MZ stub, or no MZ stub at all) makes `coff_add`
report through the error callback with `errnum` 0 and return 0 before any
symbol table or DWARF data is added; a bad magic value in the PE optional
header is reported the same way. -/
theorem coff_add_reports_format_errors_errnum_zero :
    (∀ buf : List Nat, 0x40 ≤ buf.length →
      coff_fhdr_off buf + 24 ≤ buf.length →
      ¬ coff_pe_sig_ok buf →
      coff_add_header buf
        = CoffHeaderResult.formatError "executable file is not COFF" 0) ∧
    (∀ buf : List Nat, 0x40 ≤ buf.length →
      coff_fhdr_off buf + 24 ≤ buf.length →
      coff_pe_sig_ok buf →
      coff_fhdr_off buf + 24 + coff_size_opt buf + coff_sects_num buf * 40
        ≤ buf.length →
      32 < coff_size_opt buf →
      coff_opt_magic buf ≠ PE_MAGIC → coff_opt_magic buf ≠ PEP_MAGIC →
      coff_add_header buf
        = CoffHeaderResult.formatError "bad magic in PE optional header" 0) := by
  constructor
  · intro buf h1 h2 h3
    rw [coff_add_header, if_neg (by omega), if_neg (by omega), if_pos h3]
  · intro buf h1 h2 h3 h4 h5 h6 h7
    rw [coff_add_header, if_neg (by omega), if_neg (by omega),
      if_neg (not_not_intro h3), if_neg (by omega), if_pos h5,
      if_neg h6, if_neg h7]

/-- A 64-byte buffer of zero bytes: no MZ stub, hence no PE signature. -/
def peNoMzBuf : List Nat := List.replicate 64 0

/-- An MZ stub whose `e_lfanew` names offset 64, a valid `"PE\0\0"`
signature, a file header with no sections and a 34-byte optional header
whose magic `0x999` is neither `PE_MAGIC` nor `PEP_MAGIC`. -/
def peBadOptMagicBuf : List Nat :=
  [77, 90] ++ List.replicate 58 0 ++ [64, 0, 0, 0]
    ++ [80, 69, 0, 0]
    ++ [0, 0, 0, 0, 0, 0, 0, 0, 0, 0, 0, 0, 0, 0, 0, 0, 34, 0, 0, 0]
    ++ [0x99, 0x09] ++ List.replicate 32 0

theorem coff_add_reports_format_errors_errnum_zero_witness :
    (0x40 ≤ peNoMzBuf.length ∧ coff_fhdr_off peNoMzBuf + 24 ≤ peNoMzBuf.length
      ∧ ¬ coff_pe_sig_ok peNoMzBuf
      ∧ coff_add_header peNoMzBuf
        = CoffHeaderResult.formatError "executable file is not COFF" 0) ∧
    (coff_pe_sig_ok peBadOptMagicBuf ∧ 32 < coff_size_opt peBadOptMagicBuf
      ∧ coff_opt_magic peBadOptMagicBuf ≠ PE_MAGIC
      ∧ coff_opt_magic peBadOptMagicBuf ≠ PEP_MAGIC
      ∧ coff_add_header peBadOptMagicBuf
        = CoffHeaderResult.formatError "bad magic in PE optional header" 0) :=
  ⟨⟨by decide, by decide, by decide,
    coff_add_reports_format_errors_errnum_zero.1 peNoMzBuf (by decide)
      (by decide) (by decide)⟩,
   ⟨by decide, by decide, by decide, by decide,
    coff_add_reports_format_errors_errnum_zero.2 peBadOptMagicBuf (by decide)
      (by decide) (by decide) (by decide) (by decide) (by decide)
      (by decide)⟩⟩

/-- `N_TBSHFT` of pecoff.c line 175: shift for the derived type. -/
def N_TBSHFT : Nat := 4

/-- `IMAGE_SYM_DTYPE_FUNCTION` of pecoff.c line 176. -/
def IMAGE_SYM_DTYPE_FUNCTION : Nat := 2

/-- Reinterpret a `uint16_t` as the `int16_t` it becomes when stored into
`isym->sec` (two's complement). -/
def toInt16 (u : Nat) : Int :=
  if u < 0x8000 then (u : Int) else (u : Int) - 0x10000

/-- One 18-byte `b_coff_external_symbol` record (pecoff.c lines 164-171) at
record granularity: `name` is the 8-byte name union, `value` the `uint32_t`
value, `section_number` and `typ` the raw `uint16_t` fields read by
`coff_read2`, `naux` the `number_of_aux_symbols` byte. -/
structure CoffExtSym where
  name : List Nat
  value : Nat
  section_number : Nat
  typ : Nat
  storage_class : Nat
  naux : Nat
deriving DecidableEq

/-- The one field of a `b_coff_section_header` that
`coff_initialize_syminfo` reads. -/
structure CoffSect where
  virtual_address : Nat
deriving DecidableEq

/-- `b_coff_internal_symbol` as far as `coff_initialize_syminfo` uses it
(pecoff.c lines 184-190): the resolved name bytes, the signed section
number and the type. -/
structure CoffIntSym where
  name : List Nat
  sec : Int
  typ : Nat
deriving DecidableEq

/-- The NUL-terminated string starting at `off` in a string table. -/
def cstringAt (tab : List Nat) (off : Nat) : List Nat :=
  (tab.drop off).takeWhile (fun b => b != 0)

/-- Model of `coff_expand_symbol` (pecoff.c lines 616-639): reject an
out-of-range positive section number or an out-of-range long-name offset;
resolve the name union (a nonzero first byte means a short name, stored
here as the raw 8 bytes; otherwise the 4-byte offset at its second half
points into the string table). -/
def coff_expand_symbol (sects_num : Nat) (strtab : List Nat)
    (s : CoffExtSym) : Option CoffIntSym :=
  let sec := toInt16 s.section_number
  if 0 < sec ∧ sects_num < s.section_number then none
  else if s.name.headD 0 ≠ 0 then some ⟨s.name, sec, s.typ⟩
  else
    let off := readU32LE s.name 4
    if strtab.length ≤ off then none
    else some ⟨cstringAt strtab off, sec, s.typ⟩

/-- Model of `coff_is_function_symbol` (pecoff.c lines 645-650): the derived
type is function and the section number is strictly positive. -/
def coff_is_function_symbol (isym : CoffIntSym) : Bool :=
  (isym.typ >>> N_TBSHFT == IMAGE_SYM_DTYPE_FUNCTION) && decide (0 < isym.sec)

/-- Model of `coff_short_name_len` (pecoff.c lines 556-565). -/
def coff_short_name_len (name : List Nat) : Nat :=
  ((name.take 8).takeWhile (fun b => b != 0)).length

/-- One entry of the `struct coff_symbol` array (pecoff.c lines 219-225):
`name = none` models the sentinel's NULL name. -/
structure CoffSymbol where
  name : Option (List Nat)
  address : Nat
deriving DecidableEq

instance : Inhabited CoffSymbol := ⟨⟨none, 0⟩⟩

/-- Model of `coff_symbol_compare` (pecoff.c lines 598-610). -/
def coff_symbol_compare (e1 e2 : CoffSymbol) : Int :=
  if e1.address < e2.address then -1
  else if e2.address < e1.address then 1
  else 0

/-- The entry the copy loop of `coff_initialize_syminfo` (pecoff.c lines
737-770) builds for one function symbol: short names are copied and
NUL-terminated (so cut at the first NUL within 8 bytes), long names are the
string-table string; on 32-bit (`is_64 = false`) one leading underscore is
stripped; the address is the `uint32_t` sum of the symbol value and its
section's `virtual_address`, plus the base address
(`libbacktrace_add_base`), as a `uintptr_t`. -/
def coff_mk_symbol (is_64 : Bool) (base : Nat) (sects : List CoffSect)
    (s : CoffExtSym) (isym : CoffIntSym) : CoffSymbol :=
  let name0 := if s.name.headD 0 ≠ 0 then
      (isym.name.take 8).takeWhile (fun b => b != 0)
    else isym.name
  let name1 := if is_64 = false ∧ name0.headD 0 = 95 then name0.tail
    else name0
  ⟨some name1,
    ((s.value + (sects.getD ((toInt16 s.section_number).toNat - 1)
        ⟨0⟩).virtual_address) % 2 ^ 32 + base) % 2 ^ 64⟩

/-- The symbol records actually processed by the
`for (i = 0; i < syms_count; ++i) { ...; i += naux; }` loops of
`coff_initialize_syminfo`: each processed record is followed by skipping its
aux records.  The fuel is the total record count, which bounds the number of
iterations exactly as `i < syms_count` does in C; the fuel never runs out
while records remain. -/
def coff_sym_walk_aux : Nat → List CoffExtSym → List CoffExtSym
  | 0, _ => []
  | _, [] => []
  | fuel + 1, s :: rest => s :: coff_sym_walk_aux fuel (rest.drop s.naux)

/-- The aux-skipping walk over a full symbol list. -/
def coff_sym_walk (syms : List CoffExtSym) : List CoffExtSym :=
  coff_sym_walk_aux syms.length syms

/-- The validation performed by the first loop of `coff_initialize_syminfo`
(pecoff.c lines 680-698): every processed record must expand. -/
def coff_syms_valid (sects_num : Nat) (strtab : List Nat)
    (syms : List CoffExtSym) : Bool :=
  (coff_sym_walk syms).all
    (fun s => (coff_expand_symbol sects_num strtab s).isSome)

/-- The copy loop of `coff_initialize_syminfo` (pecoff.c lines 723-773),
with the same fuel discipline as the walk: keep exactly the records that are
function symbols, skipping aux records.  The C `abort ()` on an expansion
failure is unreachable after validation; the model returns the entries
collected so far. -/
def coff_copy_syms (is_64 : Bool) (base : Nat) (sects : List CoffSect)
    (strtab : List Nat) : Nat → List CoffExtSym → List CoffSymbol
  | 0, _ => []
  | _, [] => []
  | fuel + 1, s :: rest =>
    match coff_expand_symbol sects.length strtab s with
    | none => []
    | some isym =>
      if coff_is_function_symbol isym then
        coff_mk_symbol is_64 base sects s isym
          :: coff_copy_syms is_64 base sects strtab fuel (rest.drop s.naux)
      else coff_copy_syms is_64 base sects strtab fuel (rest.drop s.naux)

/-- Model of `coff_initialize_syminfo` (pecoff.c lines 654-787): validate
every record, collect the function symbols, sort them with
`backtrace_qsort` under `coff_symbol_compare`, and append the sentinel entry
whose address is `(uintptr_t) -1` and whose name is NULL.  The C writes the
sentinel past the `count` sorted entries; sorting only the real entries and
appending the sentinel is the same array. -/
def coff_init_syminfo (is_64 : Bool) (base : Nat) (sects : List CoffSect)
    (strtab : List Nat) (syms : List CoffExtSym) :
    Option (List CoffSymbol) :=
  if coff_syms_valid sects.length strtab syms then
    some (backtrace_qsort coff_symbol_compare
        (coff_copy_syms is_64 base sects strtab syms.length syms)
      ++ [⟨none, 2 ^ 64 - 1⟩])
  else none

theorem coff_is_function_symbol_iff (isym : CoffIntSym) :
    coff_is_function_symbol isym = true ↔
      (isym.typ >>> N_TBSHFT = IMAGE_SYM_DTYPE_FUNCTION ∧ 0 < isym.sec) := by
  rw [coff_is_function_symbol]
  simp [Bool.and_eq_true, beq_iff_eq, decide_eq_true_eq]

theorem coff_copy_mem (is_64 : Bool) (base : Nat) (sects : List CoffSect)
    (strtab : List Nat) :
    ∀ (fuel : Nat) (syms : List CoffExtSym),
      ((coff_sym_walk_aux fuel syms).all
        (fun s => (coff_expand_symbol sects.length strtab s).isSome)) = true →
      ∀ e, e ∈ coff_copy_syms is_64 base sects strtab fuel syms ↔
        ∃ s ∈ coff_sym_walk_aux fuel syms, ∃ isym,
          coff_expand_symbol sects.length strtab s = some isym ∧
          coff_is_function_symbol isym = true ∧
          e = coff_mk_symbol is_64 base sects s isym := by
  intro fuel
  induction fuel with
  | zero =>
      intro syms hv e
      cases syms <;> simp [coff_copy_syms, coff_sym_walk_aux]
  | succ fuel ih =>
      intro syms hv e
      cases syms with
      | nil => simp [coff_copy_syms, coff_sym_walk_aux]
      | cons s rest =>
          rw [coff_sym_walk_aux, List.all_cons, Bool.and_eq_true] at hv
          obtain ⟨isym, hiso⟩ := Option.isSome_iff_exists.mp hv.1
          have hvrest := hv.2
          rw [coff_copy_syms]
          simp only [hiso]
          rw [coff_sym_walk_aux]
          rw [List.exists_mem_cons_iff]
          cases hfunc : coff_is_function_symbol isym with
          | true =>
              rw [if_pos rfl]
              simp only [List.mem_cons]
              constructor
              · intro hmem
                rcases hmem with he | he
                · exact Or.inl ⟨isym, hiso, hfunc, he⟩
                · exact Or.inr
                    ((ih (rest.drop s.naux) hvrest e).mp (by simpa using he))
              · intro hmem
                rcases hmem with ⟨isym2, hiso2, hfunc2, he⟩ | he
                · rw [hiso] at hiso2
                  cases hiso2
                  exact Or.inl he
                · exact Or.inr ((ih (rest.drop s.naux) hvrest e).mpr he)
          | false =>
              rw [if_neg (by simp)]
              rw [ih (rest.drop s.naux) hvrest e]
              constructor
              · intro he; exact Or.inr he
              · intro hmem
                rcases hmem with ⟨isym2, hiso2, hfunc2, he⟩ | he
                · rw [hiso] at hiso2
                  cases hiso2
                  rw [hfunc] at hfunc2
                  cases hfunc2
                · exact he

/-- Claim C9: in the output of `coff_initialize_syminfo` (the entries before
the sentinel), a symbol record is indexed if and only if it is one of the
processed records (aux records are skipped), it expands, its derived type is
function and its section number is strictly positive; the indexed entry's
name is the resolved name with one leading underscore stripped exactly when
the binary is 32-bit, and its address is the symbol value plus its section's
virtual address (as `uint32_t`) plus the base address. -/
theorem coff_init_syminfo_indexes_function_symbols (is_64 : Bool)
    (base : Nat) (sects : List CoffSect) (strtab : List Nat)
    (syms : List CoffExtSym) (out : List CoffSymbol)
    (h : coff_init_syminfo is_64 base sects strtab syms = some out) :
    ∀ e, e ∈ out.dropLast ↔
      ∃ s ∈ coff_sym_walk syms, ∃ isym,
        coff_expand_symbol sects.length strtab s = some isym ∧
        isym.typ >>> N_TBSHFT = IMAGE_SYM_DTYPE_FUNCTION ∧ 0 < isym.sec ∧
        e.name = some
          (if is_64 = false ∧
              (if s.name.headD 0 ≠ 0 then
                (isym.name.take 8).takeWhile (fun b => b != 0)
               else isym.name).headD 0 = 95 then
            (if s.name.headD 0 ≠ 0 then
              (isym.name.take 8).takeWhile (fun b => b != 0)
             else isym.name).tail
           else
            (if s.name.headD 0 ≠ 0 then
              (isym.name.take 8).takeWhile (fun b => b != 0)
             else isym.name)) ∧
        e.address = ((s.value
          + (sects.getD ((toInt16 s.section_number).toNat - 1)
              ⟨0⟩).virtual_address) % 2 ^ 32 + base) % 2 ^ 64 := by
  rw [coff_init_syminfo] at h
  split at h
  · rename_i hvalid
    have hout : out = backtrace_qsort coff_symbol_compare
        (coff_copy_syms is_64 base sects strtab syms.length syms)
        ++ [⟨none, 2 ^ 64 - 1⟩] := by
      cases h; rfl
    subst hout
    intro e
    rw [show ∀ (l : List CoffSymbol) (x : CoffSymbol),
        (l ++ [x]).dropLast = l from fun l x => by simp]
    rw [(backtrace_qsort_perm coff_symbol_compare _).mem_iff]
    rw [coff_copy_mem is_64 base sects strtab syms.length syms hvalid e]
    apply Iff.intro
    · rintro ⟨s, hs, isym, hiso, hfunc, rfl⟩
      obtain ⟨ht, hsec⟩ := (coff_is_function_symbol_iff isym).mp hfunc
      exact ⟨s, hs, isym, hiso, ht, hsec, rfl, rfl⟩
    · rintro ⟨s, hs, isym, hiso, ht, hsec, hname, haddr⟩
      refine ⟨s, hs, isym, hiso,
        (coff_is_function_symbol_iff isym).mpr ⟨ht, hsec⟩, ?_⟩
      cases e with
      | mk n a =>
          have h1 : n = some (if is_64 = false ∧
              (if s.name.headD 0 ≠ 0 then
                (isym.name.take 8).takeWhile (fun b => b != 0)
               else isym.name).headD 0 = 95 then
              (if s.name.headD 0 ≠ 0 then
                (isym.name.take 8).takeWhile (fun b => b != 0)
               else isym.name).tail
             else
              (if s.name.headD 0 ≠ 0 then
                (isym.name.take 8).takeWhile (fun b => b != 0)
               else isym.name)) := hname
          have h2 : a = ((s.value
            + (sects.getD ((toInt16 s.section_number).toNat - 1)
                ⟨0⟩).virtual_address) % 2 ^ 32 + base) % 2 ^ 64 := haddr
          rw [h1, h2]
          rfl
  · cases h

/-- A function symbol with short name `_f`, one aux record following. -/
def c9funcSym : CoffExtSym := ⟨[95, 102, 0, 0, 0, 0, 0, 0], 0x10, 1, 0x20, 2, 1⟩

/-- An aux record that would look like a function symbol if it were not
skipped. -/
def c9auxSym : CoffExtSym := ⟨[104, 0, 0, 0, 0, 0, 0, 0], 0, 1, 0x20, 0, 0⟩

/-- A data symbol (derived type not function). -/
def c9dataSym : CoffExtSym := ⟨[103, 0, 0, 0, 0, 0, 0, 0], 5, 1, 0, 3, 0⟩

/-- A small symbol table: function, its aux record, a data symbol. -/
def c9syms : List CoffExtSym := [c9funcSym, c9auxSym, c9dataSym]

/-- The expected `coff_initialize_syminfo` output for `c9syms`: the stripped
`f` at `0x10 + 0x1000`, then the sentinel. -/
def c9out : List CoffSymbol := [⟨some [102], 0x1010⟩, ⟨none, 2 ^ 64 - 1⟩]

theorem coff_init_syminfo_indexes_function_symbols_witness :
    coff_init_syminfo false 0 [⟨0x1000⟩] [0, 0, 0, 0] c9syms = some c9out ∧
      ((⟨some [102], 0x1010⟩ : CoffSymbol) ∈ c9out.dropLast ↔
        ∃ s ∈ coff_sym_walk c9syms, ∃ isym,
          coff_expand_symbol ([⟨0x1000⟩] : List CoffSect).length
              [0, 0, 0, 0] s = some isym ∧
          isym.typ >>> N_TBSHFT = IMAGE_SYM_DTYPE_FUNCTION ∧ 0 < isym.sec ∧
          (⟨some [102], 0x1010⟩ : CoffSymbol).name = some
            (if (false : Bool) = false ∧
                (if s.name.headD 0 ≠ 0 then
                  (isym.name.take 8).takeWhile (fun b => b != 0)
                 else isym.name).headD 0 = 95 then
              (if s.name.headD 0 ≠ 0 then
                (isym.name.take 8).takeWhile (fun b => b != 0)
               else isym.name).tail
             else
              (if s.name.headD 0 ≠ 0 then
                (isym.name.take 8).takeWhile (fun b => b != 0)
               else isym.name)) ∧
          (⟨some [102], 0x1010⟩ : CoffSymbol).address = ((s.value
            + (([⟨0x1000⟩] : List CoffSect).getD
                ((toInt16 s.section_number).toNat - 1) ⟨0⟩).virtual_address)
            % 2 ^ 32 + 0) % 2 ^ 64) :=
  ⟨by decide,
    coff_init_syminfo_indexes_function_symbols false 0 [⟨0x1000⟩]
      [0, 0, 0, 0] c9syms c9out (by decide) ⟨some [102], 0x1010⟩⟩

theorem coff_symbol_compare_le (e1 e2 : CoffSymbol) :
    coff_symbol_compare e1 e2 ≤ 0 ↔ e1.address ≤ e2.address := by
  rw [coff_symbol_compare]
  split_ifs with h1 h2 <;> constructor <;> intro <;> omega

theorem coff_symbol_compare_total (e1 e2 : CoffSymbol) :
    coff_symbol_compare e1 e2 ≤ 0 ∨ coff_symbol_compare e2 e1 ≤ 0 := by
  rw [coff_symbol_compare_le, coff_symbol_compare_le]
  omega

theorem coff_symbol_compare_trans (e1 e2 e3 : CoffSymbol)
    (h1 : coff_symbol_compare e1 e2 ≤ 0) (h2 : coff_symbol_compare e2 e3 ≤ 0) :
    coff_symbol_compare e1 e3 ≤ 0 := by
  rw [coff_symbol_compare_le] at h1 h2 ⊢
  omega

theorem coff_copy_syms_addr_lt (is_64 : Bool) (base : Nat)
    (sects : List CoffSect) (strtab : List Nat) :
    ∀ (fuel : Nat) (syms : List CoffExtSym) (e : CoffSymbol),
      e ∈ coff_copy_syms is_64 base sects strtab fuel syms →
      e.address < 2 ^ 64 := by
  intro fuel
  induction fuel with
  | zero => intro syms e he; cases syms <;> simp [coff_copy_syms] at he
  | succ fuel ih =>
      intro syms e he
      cases syms with
      | nil => simp [coff_copy_syms] at he
      | cons s rest =>
          rw [coff_copy_syms] at he
          cases hexp : coff_expand_symbol sects.length strtab s with
          | none => rw [hexp] at he; simp at he
          | some isym =>
              rw [hexp] at he
              simp only [] at he
              split at he
              · rcases List.mem_cons.mp he with rfl | hmem
                · rw [coff_mk_symbol]
                  exact Nat.mod_lt _ (by positivity)
                · exact ih _ e hmem
              · exact ih _ e he

theorem getD_append_left_of_lt {α : Type} [Inhabited α] (l1 l2 : List α)
    (i : Nat) (h : i < l1.length) :
    (l1 ++ l2).getD i default = l1.getD i default := by
  simp [List.getD_eq_getElem?_getD, List.getElem?_append_left h]

theorem getD_append_at_length {α : Type} [Inhabited α] (l : List α) (x : α) :
    (l ++ [x]).getD l.length default = x := by
  simp [List.getD_eq_getElem?_getD,
    List.getElem?_append_right (Nat.le_refl l.length)]

/-- Model of `coff_symbol_search` (pecoff.c lines 835-849) as the `bsearch`
comparator at entry index `i`: it inspects `entry->address` and
`entry[1].address`; `none` models an out-of-bounds read of `entry[1]`
(which the sentinel entry is there to prevent). -/
def coff_symbol_search (addr : Nat) (l : List CoffSymbol) (i : Nat) :
    Option Int :=
  if i + 1 < l.length then
    some (if addr < (l.getD i default).address then -1
      else if (l.getD (i + 1) default).address ≤ addr then 1
      else 0)
  else none

/-- The `bsearch` loop (glibc semantics: `lo = 0, hi = nmemb`; probe
`mid = (lo + hi) / 2`; narrow by the comparator's sign, return the entry on
0, NULL when the range empties).  An out-of-bounds comparator probe
propagates as `Except.error ()`.  The fuel bounds the iteration count; it is
at least `hi - lo`, which shrinks every round, so the fuel-exhausted branch
(empty range answer) is unreachable from `coff_bsearch`. -/
def coff_bsearch_aux (addr : Nat) (l : List CoffSymbol) :
    Nat → Nat → Nat → Except Unit (Option Nat)
  | 0, _, _ => Except.ok none
  | fuel + 1, lo, hi =>
    if lo < hi then
      match coff_symbol_search addr l ((lo + hi) / 2) with
      | none => Except.error ()
      | some c =>
        if c < 0 then coff_bsearch_aux addr l fuel lo ((lo + hi) / 2)
        else if 0 < c then coff_bsearch_aux addr l fuel ((lo + hi) / 2 + 1) hi
        else Except.ok (some ((lo + hi) / 2))
    else Except.ok none

/-- `bsearch (&addr, symbols, count, ...)` as called by `coff_syminfo`
(pecoff.c lines 868-870): search the first `count` entries of `l`. -/
def coff_bsearch (addr : Nat) (l : List CoffSymbol) (count : Nat) :
    Except Unit (Option Nat) :=
  coff_bsearch_aux addr l count 0 count

theorem coff_bsearch_aux_ok (addr : Nat) (l : List CoffSymbol) :
    ∀ (fuel lo hi : Nat), hi + 1 ≤ l.length → hi - lo ≤ fuel →
      ∃ r, coff_bsearch_aux addr l fuel lo hi = Except.ok r ∧
        ∀ i, r = some i → lo ≤ i ∧ i < hi ∧
          ¬ addr < (l.getD i default).address ∧
          addr < (l.getD (i + 1) default).address := by
  intro fuel
  induction fuel with
  | zero =>
      intro lo hi h1 h2
      exact ⟨none, rfl, fun i hri => by cases hri⟩
  | succ fuel ih =>
      intro lo hi h1 h2
      rw [coff_bsearch_aux]
      by_cases hlh : lo < hi
      · rw [if_pos hlh]
        have hin : (lo + hi) / 2 + 1 < l.length := by omega
        cases hcmp : coff_symbol_search addr l ((lo + hi) / 2) with
        | none =>
            rw [coff_symbol_search, if_pos hin] at hcmp
            cases hcmp
        | some c =>
            dsimp only
            rw [coff_symbol_search, if_pos hin] at hcmp
            by_cases hA : addr < (l.getD ((lo + hi) / 2) default).address
            · rw [if_pos hA] at hcmp
              cases hcmp
              rw [if_pos (by norm_num)]
              obtain ⟨r, hr, hprop⟩ := ih lo ((lo + hi) / 2) (by omega)
                (by omega)
              refine ⟨r, hr, fun i hri => ?_⟩
              obtain ⟨p1, p2, p3, p4⟩ := hprop i hri
              exact ⟨p1, by omega, p3, p4⟩
            · rw [if_neg hA] at hcmp
              by_cases hB : (l.getD ((lo + hi) / 2 + 1) default).address
                  ≤ addr
              · rw [if_pos hB] at hcmp
                cases hcmp
                rw [if_neg (by norm_num), if_pos (by norm_num)]
                obtain ⟨r, hr, hprop⟩ := ih ((lo + hi) / 2 + 1) hi h1
                  (by omega)
                refine ⟨r, hr, fun i hri => ?_⟩
                obtain ⟨p1, p2, p3, p4⟩ := hprop i hri
                exact ⟨by omega, p2, p3, p4⟩
              · rw [if_neg hB] at hcmp
                cases hcmp
                rw [if_neg (by norm_num), if_neg (by norm_num)]
                exact ⟨some ((lo + hi) / 2), rfl, fun i hri => by
                  cases hri
                  exact ⟨by omega, by omega, hA, by omega⟩⟩
      · rw [if_neg hlh]
        exact ⟨none, rfl, fun i hri => by cases hri⟩

theorem qsort_snoc_sentinel_props (real out : List CoffSymbol)
    (hbound : ∀ e ∈ real, e.address < 2 ^ 64)
    (hout : out = backtrace_qsort coff_symbol_compare real
      ++ [⟨none, 2 ^ 64 - 1⟩]) :
    1 ≤ out.length ∧
    out.getD (out.length - 1) default = ⟨none, 2 ^ 64 - 1⟩ ∧
    (∀ i, i + 1 < out.length →
      (out.getD i default).address ≤ (out.getD (i + 1) default).address) ∧
    (∀ addr, ∃ r, coff_bsearch addr out (out.length - 1) = Except.ok r ∧
      ∀ i, r = some i → i + 1 < out.length ∧
        (out.getD i default).address ≤ addr ∧
        addr < (out.getD (i + 1) default).address) := by
  have hperm := backtrace_qsort_perm coff_symbol_compare real
  have hpw := backtrace_qsort_pairwise coff_symbol_compare
    coff_symbol_compare_total coff_symbol_compare_trans real
  subst hout
  set q := backtrace_qsort coff_symbol_compare real with hq
  have hqb : ∀ e ∈ q, e.address < 2 ^ 64 :=
    fun e he => hbound e (hperm.mem_iff.mp he)
  have hqadj : ∀ i, i + 1 < q.length →
      (q.getD i default).address ≤ (q.getD (i + 1) default).address := by
    intro i hi
    have hp := List.pairwise_iff_get.mp hpw ⟨i, by omega⟩ ⟨i + 1, hi⟩
      (Fin.mk_lt_mk.mpr (by omega))
    rw [getD_eq_get q i (by omega), getD_eq_get q (i + 1) hi]
    exact (coff_symbol_compare_le _ _).mp hp
  have hlen : (q ++ [(⟨none, 2 ^ 64 - 1⟩ : CoffSymbol)]).length
      = q.length + 1 := by simp
  have hone : 1 ≤ (q ++ [(⟨none, 2 ^ 64 - 1⟩ : CoffSymbol)]).length := by
    rw [hlen]; omega
  have hsent : (q ++ [(⟨none, 2 ^ 64 - 1⟩ : CoffSymbol)]).getD
      ((q ++ [(⟨none, 2 ^ 64 - 1⟩ : CoffSymbol)]).length - 1) default
      = ⟨none, 2 ^ 64 - 1⟩ := by
    rw [hlen, Nat.add_sub_cancel]
    exact getD_append_at_length q _
  have hsorted : ∀ i, i + 1 < (q ++ [(⟨none, 2 ^ 64 - 1⟩ : CoffSymbol)]).length →
      ((q ++ [(⟨none, 2 ^ 64 - 1⟩ : CoffSymbol)]).getD i default).address
        ≤ ((q ++ [(⟨none, 2 ^ 64 - 1⟩ : CoffSymbol)]).getD (i + 1)
            default).address := by
    intro i hi
    rw [hlen] at hi
    by_cases hiq : i + 1 < q.length
    · rw [getD_append_left_of_lt q _ i (by omega),
        getD_append_left_of_lt q _ (i + 1) hiq]
      exact hqadj i hiq
    · have hieq : i + 1 = q.length := by omega
      rw [hieq, getD_append_at_length,
        getD_append_left_of_lt q _ i (by omega)]
      have hm : q.getD i default ∈ q := by
        rw [getD_eq_get q i (by omega)]
        exact q.get_mem _ _
      have hb := hqb _ hm
      show (q.getD i default).address ≤ 2 ^ 64 - 1
      omega
  refine ⟨hone, hsent, hsorted, ?_⟩
  intro addr
  obtain ⟨r, hr, hprop⟩ := coff_bsearch_aux_ok addr
    (q ++ [(⟨none, 2 ^ 64 - 1⟩ : CoffSymbol)])
    ((q ++ [(⟨none, 2 ^ 64 - 1⟩ : CoffSymbol)]).length - 1) 0
    ((q ++ [(⟨none, 2 ^ 64 - 1⟩ : CoffSymbol)]).length - 1)
    (by omega) (by omega)
  refine ⟨r, hr, fun i hri => ?_⟩
  obtain ⟨p1, p2, p3, p4⟩ := hprop i hri
  exact ⟨by omega, by omega, p4⟩

/-- Claim C10: after `coff_initialize_syminfo` succeeds, the symbols array
holds the indexed function symbols sorted non-decreasingly by address,
followed by one sentinel entry at index `count` whose address is the maximum
`uintptr_t` value and whose name is NULL; consequently the `bsearch` over
the `count` real entries never probes `entry[1].address` outside the
allocated array (the search result is never the out-of-bounds marker), and a
returned entry satisfies `entry.address <= addr < entry[1].address`. -/
theorem coff_init_syminfo_sentinel_and_search (is_64 : Bool) (base : Nat)
    (sects : List CoffSect) (strtab : List Nat) (syms : List CoffExtSym)
    (out : List CoffSymbol)
    (h : coff_init_syminfo is_64 base sects strtab syms = some out) :
    1 ≤ out.length ∧
    out.getD (out.length - 1) default = ⟨none, 2 ^ 64 - 1⟩ ∧
    (∀ i, i + 1 < out.length →
      (out.getD i default).address ≤ (out.getD (i + 1) default).address) ∧
    (∀ addr, ∃ r, coff_bsearch addr out (out.length - 1) = Except.ok r ∧
      ∀ i, r = some i → i + 1 < out.length ∧
        (out.getD i default).address ≤ addr ∧
        addr < (out.getD (i + 1) default).address) := by
  rw [coff_init_syminfo] at h
  split at h
  · exact qsort_snoc_sentinel_props
      (coff_copy_syms is_64 base sects strtab syms.length syms) out
      (fun e he => coff_copy_syms_addr_lt is_64 base sects strtab
        syms.length syms e he)
      (by cases h; rfl)
  · cases h

theorem coff_init_syminfo_sentinel_and_search_witness :
    coff_init_syminfo false 7 [⟨0x1000⟩] [0, 0, 0, 0] c9syms = some
        [⟨some [102], 0x1017⟩, ⟨none, 2 ^ 64 - 1⟩] ∧
      (1 ≤ ([⟨some [102], 0x1017⟩, ⟨none, 2 ^ 64 - 1⟩] :
          List CoffSymbol).length ∧
        (([⟨some [102], 0x1017⟩, ⟨none, 2 ^ 64 - 1⟩] :
          List CoffSymbol).getD
          (([⟨some [102], 0x1017⟩, ⟨none, 2 ^ 64 - 1⟩] :
            List CoffSymbol).length - 1) default = ⟨none, 2 ^ 64 - 1⟩) ∧
        (∀ i, i + 1 < ([⟨some [102], 0x1017⟩, ⟨none, 2 ^ 64 - 1⟩] :
            List CoffSymbol).length →
          (([⟨some [102], 0x1017⟩, ⟨none, 2 ^ 64 - 1⟩] :
            List CoffSymbol).getD i default).address
            ≤ (([⟨some [102], 0x1017⟩, ⟨none, 2 ^ 64 - 1⟩] :
              List CoffSymbol).getD (i + 1) default).address) ∧
        (∀ addr, ∃ r, coff_bsearch addr
            [⟨some [102], 0x1017⟩, ⟨none, 2 ^ 64 - 1⟩]
            (([⟨some [102], 0x1017⟩, ⟨none, 2 ^ 64 - 1⟩] :
              List CoffSymbol).length - 1) = Except.ok r ∧
          ∀ i, r = some i →
            i + 1 < ([⟨some [102], 0x1017⟩, ⟨none, 2 ^ 64 - 1⟩] :
              List CoffSymbol).length ∧
            (([⟨some [102], 0x1017⟩, ⟨none, 2 ^ 64 - 1⟩] :
              List CoffSymbol).getD i default).address ≤ addr ∧
            addr < (([⟨some [102], 0x1017⟩, ⟨none, 2 ^ 64 - 1⟩] :
              List CoffSymbol).getD (i + 1) default).address)) :=
  ⟨by decide,
    coff_init_syminfo_sentinel_and_search false 7 [⟨0x1000⟩] [0, 0, 0, 0]
      c9syms [⟨some [102], 0x1017⟩, ⟨none, 2 ^ 64 - 1⟩] (by decide)⟩
